import Mathlib

/-!
Verification of the position arithmetic of the fault dispute game
(`op-challenger/game/fault/types`).

This file gives a shallow embedding of the `Depth` / `Position` code:
the variant of `position.go` whose API (`Depth`, `NewDepth`,
`OneLevelShallower`, `OneLevelDeeper`, `RelativeDepth`, `MaxGIndex`) is the
one the package's test file `position_test.go` compiles against.

Modelling conventions:
* `big.Int` index values are modelled as `Nat` (every index reachable through
  the embedded operations is non-negative).
* The `uint64` value stored in `Depth` is modelled as a `Nat`; where the Go
  code can wrap a `uint64` subtraction, the wrap is written out explicitly as
  `(a + 2^64 - b) % 2^64`.
* A Go `panic` (and the one `error` return, `ErrPositionDepthTooSmall`) is
  modelled by an `Option`/`none` result.
* `big.Int.Mod` with a positive modulus on non-negative operands is `Nat.%`;
  `big.Int.Div` by 2 is `Nat./`; `Lsh`/`Rsh`/`Or`/`And`/`Not` are the
  corresponding bitwise operations, with the two's complement `And`/`Not` of
  `NewPositionFromGIndex` expressed through `Int.land`/`Int.lnot`.
-/

namespace FaultTypes

/-- `math.MaxUint64`, the largest depth value the Go implementation can
represent. -/
def MaxUint64 : Nat := 2 ^ 64 - 1

/-- Go `type Depth struct { val uint64 }`. -/
structure Depth where
  val : Nat
deriving DecidableEq

/-- Go `func NewDepth(d uint64) Depth`. -/
def NewDepth (d : Nat) : Depth := ⟨d⟩

/-- Go `func (d Depth) IsRoot() bool`. -/
def Depth.IsRoot (d : Depth) : Bool := d.val == 0

/-- Go `func (d Depth) IsOdd() bool`. -/
def Depth.IsOdd (d : Depth) : Bool := d.val % 2 == 1

/-- Go `func (d Depth) MaxGIndex() *big.Int`: `1 << d.val`. -/
def Depth.MaxGIndex (d : Depth) : Nat := 1 <<< d.val

/-- Go `func (d Depth) OneLevelShallower() Depth`; panics at the root,
modelled as `none`. -/
def Depth.OneLevelShallower (d : Depth) : Option Depth :=
  if d.IsRoot then none else some ⟨d.val - 1⟩

/-- Go `func (d Depth) OneLevelDeeper() Depth`; panics at `math.MaxUint64`,
modelled as `none`. -/
def Depth.OneLevelDeeper (d : Depth) : Option Depth :=
  if d.val == MaxUint64 then none else some ⟨d.val + 1⟩

/-- Go `func (d Depth) DeeperThan(other Depth) bool`. -/
def Depth.DeeperThan (d other : Depth) : Bool := d.val > other.val

/-- Go `func (d Depth) RelativeDepth(ancestor Depth) Depth`; panics when
`ancestor` is deeper (modelled as `none`), and otherwise returns
`ancestor.val - d.val`, a `uint64` subtraction that wraps modulo `2^64`,
written here as `(ancestor.val + 2^64 - d.val) % 2^64` (the two agree for
`uint64`-representable operands). -/
def Depth.RelativeDepth (d ancestor : Depth) : Option Depth :=
  if ancestor.DeeperThan d then none
  else some ⟨(ancestor.val + 2 ^ 64 - d.val) % 2 ^ 64⟩

/-- Go `type Position struct { depth Depth; indexAtDepth *big.Int }`. -/
structure Position where
  depth : Depth
  indexAtDepth : Nat
deriving DecidableEq

/-- Go `func NewPosition(depth Depth, indexAtDepth *big.Int) Position`. -/
def NewPosition (depth : Depth) (indexAtDepth : Nat) : Position :=
  { depth := depth, indexAtDepth := indexAtDepth }

/-- Iteration core of the Go loop of `bigMSB`: shift right until zero,
counting the iterations. The `fuel` argument only bounds the number of
iterations (structural recursion); `fuel = x` always suffices because the
shifted value strictly decreases on every iteration. -/
def bitLenAux (fuel x : Nat) : Nat :=
  match fuel with
  | 0 => 0
  | fuel + 1 => if x = 0 then 0 else bitLenAux fuel (x / 2) + 1

/-- The Go loop of `bigMSB`: the number of right shifts needed to reach 0
(the bit length of the argument). -/
def bitLen (x : Nat) : Nat := bitLenAux x x

/-- Go `func bigMSB(x *big.Int) Depth`: returns 0 on input 0, otherwise the
loop shifts right until 0, counting iterations, and returns the count minus
one. -/
def bigMSB (x : Nat) : Depth :=
  if x = 0 then NewDepth 0 else NewDepth (bitLen x - 1)

/-- Go `func NewPositionFromGIndex(x *big.Int) Position`:
`withoutMSB := Not(1 << depth)`, `indexAtDepth := And(x, withoutMSB)`,
the two's complement operations expressed over `Int`. -/
def NewPositionFromGIndex (x : Nat) : Position :=
  let depth := bigMSB x
  let withoutMSB : Int := Int.lnot ((1 <<< depth.val : Nat) : Int)
  let indexAtDepth := (Int.land (x : Int) withoutMSB).toNat
  NewPosition depth indexAtDepth

/-- Go `func (p Position) MoveRight() Position`. -/
def Position.MoveRight (p : Position) : Position :=
  { depth := p.depth, indexAtDepth := p.indexAtDepth + 1 }

/-- Go `func (p Position) IndexAtDepth() *big.Int` (this accessor returns 0
for a nil index; a `Nat` index is never nil). -/
def Position.IndexAtDepth (p : Position) : Nat := p.indexAtDepth

/-- Go `func (p Position) IsRootPosition() bool`. -/
def Position.IsRootPosition (p : Position) : Bool :=
  p.depth.IsRoot && (p.indexAtDepth == 0)

/-- Go `func (p Position) lshIndex(amount Depth) *big.Int`. -/
def Position.lshIndex (p : Position) (amount : Depth) : Nat :=
  p.IndexAtDepth <<< amount.val

/-- Go `func (p Position) RelativeToAncestorAtDepth(ancestor Depth)
(Position, error)`: `ErrPositionDepthTooSmall` (modelled as `none`) when the
ancestor is deeper, else `NewPosition(newPosDepth, indexAtDepth mod
newPosDepth.MaxGIndex())` where `newPosDepth = p.depth.RelativeDepth
ancestor`. -/
def Position.RelativeToAncestorAtDepth (p : Position) (ancestor : Depth) :
    Option Position :=
  if ancestor.DeeperThan p.depth then none
  else (p.depth.RelativeDepth ancestor).map fun newPosDepth =>
    NewPosition newPosDepth (p.indexAtDepth % newPosDepth.MaxGIndex)

/-- Go `func (p Position) TraceIndex(maxDepth Depth) *big.Int`:
`rd := maxDepth.RelativeDepth(p.Depth())`, then
`(indexAtDepth << rd) | ((1 << rd) - 1)`. The panic inside `RelativeDepth`
is modelled as `none`. -/
def Position.TraceIndex (p : Position) (maxDepth : Depth) : Option Nat :=
  (maxDepth.RelativeDepth p.depth).map fun rd =>
    p.lshIndex rd ||| ((1 <<< rd.val) - 1)

/-- Go `func boolToInt(b bool) int`. -/
def boolToInt (b : Bool) : Nat := if b then 1 else 0

/-- Go `func (p Position) move(right bool) Position`: one level deeper (which
can panic, modelled as `none`) with index `(indexAtDepth << 1) | right`. -/
def Position.move (p : Position) (right : Bool) : Option Position :=
  p.depth.OneLevelDeeper.map fun dd =>
    { depth := dd, indexAtDepth := p.lshIndex (NewDepth 1) ||| boolToInt right }

/-- Go `func (p Position) parentIndexAtDepth() *big.Int`. -/
def Position.parentIndexAtDepth (p : Position) : Nat := p.IndexAtDepth / 2

/-- Go `func (p Position) RightOf(parent Position) bool`. -/
def Position.RightOf (p parent : Position) : Bool :=
  p.parentIndexAtDepth != parent.IndexAtDepth

/-- Go `func (p Position) parent() Position`: one level shallower (panics at
the root, modelled as `none`) with the parent index. -/
def Position.parent (p : Position) : Option Position :=
  p.depth.OneLevelShallower.map fun dd =>
    { depth := dd, indexAtDepth := p.parentIndexAtDepth }

/-- Go `func (p Position) Attack() Position`. -/
def Position.Attack (p : Position) : Option Position := p.move false

/-- Go `func (p Position) Defend() Position`:
`p.parent().move(true).move(false)`. -/
def Position.Defend (p : Position) : Option Position :=
  p.parent.bind fun q => (q.move true).bind fun r => r.move false

/-- Go `func (p Position) ToGIndex() *big.Int`: `(1 << depth) | indexAtDepth`
(the `uint` narrowing guard on the depth cannot fire on a 64-bit target,
where `uint` and `uint64` coincide). -/
def Position.ToGIndex (p : Position) : Nat :=
  (1 <<< p.depth.val) ||| p.IndexAtDepth

/-- A position is well formed when its index is a valid rank among the
`2^depth` nodes of its depth. -/
def WellFormed (p : Position) : Prop := p.indexAtDepth < 2 ^ p.depth.val

/-- Modelled from the spec: `DefendsParent` (and the game-state claim store
it lives in) is not among the provided sources — only its tests are. §4.2:
true iff the claim sits two levels below the parent and its 2-bit relative
index inside the parent's subtree (`relativeToAncestorAtDepth(parent.depth)`,
i.e. `indexAtDepth mod 2^(depth - parent.depth)` per §4.1) is 2 or 3; false
when there is no parent position at all. -/
def DefendsParent (claim : Position) (parent : Option Position) : Bool :=
  match parent with
  | none => false
  | some pp =>
    (claim.depth.val == pp.depth.val + 2) &&
      (claim.indexAtDepth % 2 ^ (claim.depth.val - pp.depth.val) == 2 ||
        claim.indexAtDepth % 2 ^ (claim.depth.val - pp.depth.val) == 3)

/-! ## Evaluation lemmas for the embedded operations -/

theorem bitLenAux_zero (fuel : Nat) : bitLenAux fuel 0 = 0 := by
  cases fuel <;> simp [bitLenAux]

theorem bitLenAux_bounds (fuel : Nat) : ∀ x, 1 ≤ x → x ≤ fuel →
    2 ^ (bitLenAux fuel x - 1) ≤ x ∧ x < 2 ^ bitLenAux fuel x := by
  induction fuel with
  | zero => intro x hx hf; omega
  | succ fuel ih =>
    intro x hx hf
    have hx0 : x ≠ 0 := by omega
    simp only [bitLenAux, hx0, if_false]
    by_cases h1 : x = 1
    · subst h1
      simp [bitLenAux_zero]
    · have hx2 : 2 ≤ x := by omega
      have hdiv1 : 1 ≤ x / 2 := by omega
      have hdivf : x / 2 ≤ fuel := by omega
      obtain ⟨hlo, hhi⟩ := ih (x / 2) hdiv1 hdivf
      set b := bitLenAux fuel (x / 2) with hb
      have hb1 : 1 ≤ b := by
        rcases Nat.eq_zero_or_pos b with h0 | h
        · rw [h0] at hhi; omega
        · exact h
      have hpow : 2 ^ b = 2 * 2 ^ (b - 1) := by
        calc 2 ^ b = 2 ^ (b - 1 + 1) := by congr 1; omega
        _ = 2 * 2 ^ (b - 1) := by rw [Nat.pow_succ]; omega
      have hpow2 : 2 ^ (b + 1) = 2 * 2 ^ b := by rw [Nat.pow_succ]; omega
      constructor
      · have : b + 1 - 1 = b := by omega
        rw [this, hpow]
        omega
      · rw [hpow2]
        omega

theorem bitLen_bounds {x : Nat} (hx : 1 ≤ x) :
    2 ^ (bitLen x - 1) ≤ x ∧ x < 2 ^ bitLen x :=
  bitLenAux_bounds x x hx (Nat.le_refl x)

theorem bitLen_pos {x : Nat} (hx : 1 ≤ x) : 1 ≤ bitLen x := by
  rcases Nat.eq_zero_or_pos (bitLen x) with h0 | h
  · exfalso
    have := (bitLen_bounds hx).2
    rw [h0] at this
    omega
  · exact h

theorem bigMSB_val {x : Nat} (hx : 1 ≤ x) : (bigMSB x).val = bitLen x - 1 := by
  have : x ≠ 0 := by omega
  simp [bigMSB, this, NewDepth]

theorem bigMSB_le {x : Nat} (hx : 1 ≤ x) : 2 ^ (bigMSB x).val ≤ x := by
  rw [bigMSB_val hx]
  exact (bitLen_bounds hx).1

theorem lt_bigMSB_succ {x : Nat} (hx : 1 ≤ x) : x < 2 ^ ((bigMSB x).val + 1) := by
  rw [bigMSB_val hx]
  have h1 := bitLen_pos hx
  have : bitLen x - 1 + 1 = bitLen x := by omega
  rw [this]
  exact (bitLen_bounds hx).2

/-- The Go loop computes exactly the floor of the base-2 logarithm. -/
theorem bigMSB_eq_log {x : Nat} (hx : 1 ≤ x) : (bigMSB x).val = Nat.log 2 x :=
  (Nat.log_eq_of_pow_le_of_lt_pow (bigMSB_le hx) (lt_bigMSB_succ hx)).symm

theorem div_two_pow_bigMSB {x : Nat} (hx : 1 ≤ x) :
    x / 2 ^ (bigMSB x).val = 1 := by
  apply Nat.div_eq_of_lt_le
  · simpa using bigMSB_le hx
  · have := lt_bigMSB_succ hx
    rw [Nat.pow_succ] at this
    omega

/-- Two's complement `And`/`Not` of `big.Int` on a non-negative left operand
is bitwise set difference on the naturals. -/
theorem land_lnot_toNat (x m : Nat) :
    (Int.land (x : Int) (Int.lnot (m : Int))).toNat = Nat.ldiff x m := rfl

theorem ldiff_two_pow_eq_mod {x d : Nat} (h : x < 2 ^ (d + 1)) :
    Nat.ldiff x (2 ^ d) = x % 2 ^ d := by
  apply Nat.eq_of_testBit_eq
  intro k
  rw [Nat.testBit_ldiff, Nat.testBit_mod_two_pow]
  rcases Nat.lt_trichotomy k d with hk | hk | hk
  · have hne : d ≠ k := by omega
    simp [Nat.testBit_two_pow_of_ne hne, hk]
  · subst hk
    simp [Nat.testBit_two_pow_self]
  · have hne : d ≠ k := by omega
    have hxk : x.testBit k = false := by
      apply Nat.testBit_lt_two_pow
      calc x < 2 ^ (d + 1) := h
      _ ≤ 2 ^ k := Nat.pow_le_pow_right (by omega) (by omega)
    simp [Nat.testBit_two_pow_of_ne hne, hxk]

/-- `NewPositionFromGIndex` in arithmetic form: clearing the most significant
bit of `x` leaves `x mod 2^msb`. -/
theorem fromGIndex_eval (x : Nat) :
    NewPositionFromGIndex x = NewPosition (bigMSB x) (x % 2 ^ (bigMSB x).val) := by
  unfold NewPositionFromGIndex
  simp only [NewPosition, Position.mk.injEq, true_and]
  rw [land_lnot_toNat, Nat.one_shiftLeft]
  by_cases hx : x = 0
  · subst hx
    apply Nat.eq_of_testBit_eq
    intro k
    rw [Nat.testBit_ldiff]
    simp
  · exact ldiff_two_pow_eq_mod (lt_bigMSB_succ (by omega))

theorem two_mul_lor_one (i : Nat) : 2 * i ||| 1 = 2 * i + 1 := by
  apply Nat.eq_of_testBit_eq
  intro k
  cases k with
  | zero =>
    have h1 : 2 * i % 2 = 0 := by omega
    have h2 : (2 * i + 1) % 2 = 1 := by omega
    simp [Nat.testBit_or, Nat.testBit_zero, h1, h2]
  | succ k =>
    have h1 : 2 * i / 2 = i := by omega
    have h2 : (2 * i + 1) / 2 = i := by omega
    have h3 : (1 : Nat) / 2 = 0 := by omega
    rw [Nat.testBit_or, Nat.testBit_add_one, Nat.testBit_add_one,
      Nat.testBit_add_one, h1, h2, h3]
    simp

theorem two_pow_lor_eq_add {d i : Nat} (h : i < 2 ^ d) :
    2 ^ d ||| i = 2 ^ d + i := by
  apply Nat.eq_of_testBit_eq
  intro k
  rw [Nat.testBit_or]
  rcases Nat.lt_trichotomy k d with hk | hk | hk
  · rw [Nat.testBit_two_pow_add_gt hk]
    have hne : d ≠ k := by omega
    simp [Nat.testBit_two_pow_of_ne hne]
  · subst hk
    rw [Nat.testBit_two_pow_add_eq]
    simp [Nat.testBit_two_pow_self, Nat.testBit_lt_two_pow h]
  · have hne : d ≠ k := by omega
    have hik : i.testBit k = false := by
      apply Nat.testBit_lt_two_pow
      calc i < 2 ^ d := h
      _ ≤ 2 ^ k := Nat.pow_le_pow_right (by omega) (by omega)
    have hsum : (2 ^ d + i).testBit k = false := by
      apply Nat.testBit_lt_two_pow
      calc 2 ^ d + i < 2 ^ d + 2 ^ d := by omega
      _ = 2 ^ (d + 1) := by rw [Nat.pow_succ]; omega
      _ ≤ 2 ^ k := Nat.pow_le_pow_right (by omega) (by omega)
    simp [Nat.testBit_two_pow_of_ne hne, hik, hsum]

/-- `ToGIndex` of a well-formed position is `2^depth + indexAtDepth`. -/
theorem ToGIndex_eval {d i : Nat} (h : i < 2 ^ d) :
    Position.ToGIndex ⟨⟨d⟩, i⟩ = 2 ^ d + i := by
  unfold Position.ToGIndex Position.IndexAtDepth
  rw [Nat.one_shiftLeft]
  exact two_pow_lor_eq_add h

theorem move_eval (d i : Nat) (right : Bool) :
    Position.move ⟨⟨d⟩, i⟩ right =
      if d = 2 ^ 64 - 1 then none
      else some ⟨⟨d + 1⟩, 2 * i + boolToInt right⟩ := by
  unfold Position.move Depth.OneLevelDeeper MaxUint64
  have hsh : Position.lshIndex ⟨⟨d⟩, i⟩ (NewDepth 1) = 2 * i := by
    simp only [Position.lshIndex, Position.IndexAtDepth, NewDepth]
    rw [Nat.shiftLeft_eq]
    omega
  by_cases hd : d = 2 ^ 64 - 1
  · simp [hd]
  · simp only [Depth.val, beq_iff_eq, hd, if_false, Option.map_some]
    cases right with
    | false => simp [hsh, boolToInt]
    | true => simp [hsh, boolToInt, two_mul_lor_one]

theorem Attack_eval (d i : Nat) :
    Position.Attack ⟨⟨d⟩, i⟩ =
      if d = 2 ^ 64 - 1 then none else some ⟨⟨d + 1⟩, 2 * i⟩ := by
  unfold Position.Attack
  rw [move_eval]
  simp [boolToInt]

theorem parent_eval (d i : Nat) :
    Position.parent ⟨⟨d⟩, i⟩ =
      if d = 0 then none else some ⟨⟨d - 1⟩, i / 2⟩ := by
  unfold Position.parent Depth.OneLevelShallower Depth.IsRoot
  by_cases hd : d = 0
  · simp [hd]
  · simp [hd, Position.parentIndexAtDepth, Position.IndexAtDepth]

theorem Defend_eval {d : Nat} (i : Nat) (h1 : 1 ≤ d) (hA : d - 1 ≠ 2 ^ 64 - 1)
    (hB : d ≠ 2 ^ 64 - 1) :
    Position.Defend ⟨⟨d⟩, i⟩ = some ⟨⟨d + 1⟩, 2 * (2 * (i / 2) + 1)⟩ := by
  unfold Position.Defend
  rw [parent_eval]
  have hd0 : d ≠ 0 := by omega
  simp only [hd0, if_false, Option.some_bind]
  rw [move_eval]
  simp only [hA, if_false, Option.some_bind]
  have hd2 : d - 1 + 1 = d := by omega
  rw [hd2, move_eval]
  have hd4 : ¬d = 18446744073709551615 := by omega
  simp [hB, hd4, boolToInt]

theorem Defend_zero_eval (i : Nat) : Position.Defend ⟨⟨0⟩, i⟩ = none := by
  unfold Position.Defend
  rw [parent_eval, if_pos rfl]
  rfl

theorem Defend_wrap_eval {d : Nat} (i : Nat) (h1 : 1 ≤ d) (hA : d - 1 = 2 ^ 64 - 1) :
    Position.Defend ⟨⟨d⟩, i⟩ = none := by
  unfold Position.Defend
  rw [parent_eval, if_neg (by omega), Option.some_bind, move_eval, if_pos hA]
  rfl

theorem RelativeToAncestor_eval (d i av : Nat) :
    Position.RelativeToAncestorAtDepth ⟨⟨d⟩, i⟩ ⟨av⟩ =
      if av > d then none
      else some ⟨⟨(av + 2 ^ 64 - d) % 2 ^ 64⟩,
        i % 2 ^ ((av + 2 ^ 64 - d) % 2 ^ 64)⟩ := by
  unfold Position.RelativeToAncestorAtDepth Depth.RelativeDepth Depth.DeeperThan
    Depth.MaxGIndex NewPosition
  by_cases h : av > d
  · simp [h]
  · simp [h, Nat.one_shiftLeft]

theorem TraceIndex_eval (d i m : Nat) :
    Position.TraceIndex ⟨⟨d⟩, i⟩ ⟨m⟩ =
      if d > m then none
      else some ((i <<< ((d + 2 ^ 64 - m) % 2 ^ 64)) |||
        (2 ^ ((d + 2 ^ 64 - m) % 2 ^ 64) - 1)) := by
  unfold Position.TraceIndex Depth.RelativeDepth Depth.DeeperThan Position.lshIndex
    Position.IndexAtDepth
  by_cases h : d > m
  · simp [h]
  · simp [h, Nat.one_shiftLeft]

theorem Defend_max_eval (i : Nat) :
    Position.Defend ⟨⟨2 ^ 64 - 1⟩, i⟩ = none := by
  have h0 : (2 : Nat) ^ 64 - 1 ≠ 0 := by omega
  have h1 : (2 : Nat) ^ 64 - 1 - 1 ≠ 2 ^ 64 - 1 := by omega
  have h2 : (2 : Nat) ^ 64 - 1 - 1 + 1 = 2 ^ 64 - 1 := by omega
  unfold Position.Defend
  rw [parent_eval, if_neg h0, Option.some_bind, move_eval, if_neg h1,
    Option.some_bind, h2, move_eval, if_pos rfl]

/-! ## Concrete positions from small generalized indices -/

theorem fromGIndex_one : NewPositionFromGIndex 1 = ⟨⟨0⟩, 0⟩ := by
  rw [fromGIndex_eval]; decide

theorem fromGIndex_two : NewPositionFromGIndex 2 = ⟨⟨1⟩, 0⟩ := by
  rw [fromGIndex_eval]; decide

theorem fromGIndex_three : NewPositionFromGIndex 3 = ⟨⟨1⟩, 1⟩ := by
  rw [fromGIndex_eval]; decide

theorem fromGIndex_four : NewPositionFromGIndex 4 = ⟨⟨2⟩, 0⟩ := by
  rw [fromGIndex_eval]; decide

theorem fromGIndex_five : NewPositionFromGIndex 5 = ⟨⟨2⟩, 1⟩ := by
  rw [fromGIndex_eval]; decide

theorem fromGIndex_six : NewPositionFromGIndex 6 = ⟨⟨2⟩, 2⟩ := by
  rw [fromGIndex_eval]; decide

theorem fromGIndex_seven : NewPositionFromGIndex 7 = ⟨⟨2⟩, 3⟩ := by
  rw [fromGIndex_eval]; decide

/-! ## Claim theorems -/

/-- C1: for every generalized index `x ≥ 1`, `fromGIndex` followed by
`toGIndex` returns exactly `x`: the depth is the most-significant-bit index
of `x`, the index is `x` with that leading bit cleared, and
`(1 << depth) | indexAtDepth` recombines them to `x`. -/
theorem claim1_gindex_round_trip (x : Nat) (hx : 1 ≤ x) :
    (NewPositionFromGIndex x).ToGIndex = x := by
  rw [fromGIndex_eval]
  show Position.ToGIndex ⟨⟨(bigMSB x).val⟩, x % 2 ^ (bigMSB x).val⟩ = x
  rw [ToGIndex_eval (Nat.mod_lt x (Nat.two_pow_pos _))]
  have hx2 : 2 ^ (bigMSB x).val * (x / 2 ^ (bigMSB x).val) +
      x % 2 ^ (bigMSB x).val = x := Nat.div_add_mod x _
  rw [div_two_pow_bigMSB hx, Nat.mul_one] at hx2
  exact hx2

theorem claim1_gindex_round_trip_witness :
    (NewPositionFromGIndex 6).ToGIndex = 6 :=
  claim1_gindex_round_trip 6 (by decide)

/-- C2 counterexample: defending from gindex 3 (a right child, odd
indexAtDepth 1) lands on exactly the attack position (gindex 6), not on an
index strictly to the right of the plain attack. -/
theorem claim2_defend_not_right_cex :
    Position.Defend (NewPositionFromGIndex 3) =
      Position.Attack (NewPositionFromGIndex 3) ∧
    Position.Defend (NewPositionFromGIndex 3) = some ⟨⟨2⟩, 2⟩ ∧
    Position.Attack (NewPositionFromGIndex 3) = some ⟨⟨2⟩, 2⟩ := by
  rw [fromGIndex_three]
  exact ⟨by decide, by decide, by decide⟩

/-- C2 (amended): `attack` returns the left child (depth+1, index doubled);
`defend` returns the left child of the right child of the parent, moving to
depth+1 at an index 2 to the right of a plain attack when indexAtDepth is
even, and equal to the plain attack when indexAtDepth is odd; in particular
attacking gindex 2 yields 4, defending gindex 2 yields 6, attacking gindex 4
yields 8, and defending gindex 4 yields 10. -/
theorem claim2_attack_defend_amended :
    (∀ d i, d < 2 ^ 64 - 1 →
      Position.Attack ⟨⟨d⟩, i⟩ = some ⟨⟨d + 1⟩, 2 * i⟩) ∧
    (∀ d i, 1 ≤ d → d < 2 ^ 64 - 1 →
      Position.Defend ⟨⟨d⟩, i⟩ = some ⟨⟨d + 1⟩, 2 * (2 * (i / 2) + 1)⟩ ∧
      (i % 2 = 0 → 2 * (2 * (i / 2) + 1) = 2 * i + 2) ∧
      (i % 2 = 1 → 2 * (2 * (i / 2) + 1) = 2 * i)) ∧
    (Position.Attack (NewPositionFromGIndex 2)).map Position.ToGIndex = some 4 ∧
    (Position.Defend (NewPositionFromGIndex 2)).map Position.ToGIndex = some 6 ∧
    (Position.Attack (NewPositionFromGIndex 4)).map Position.ToGIndex = some 8 ∧
    (Position.Defend (NewPositionFromGIndex 4)).map Position.ToGIndex = some 10 := by
  refine ⟨?_, ?_, ?_, ?_, ?_, ?_⟩
  · intro d i hd
    rw [Attack_eval, if_neg (by omega)]
  · intro d i h1 h2
    exact ⟨Defend_eval i h1 (by omega) (by omega), by omega, by omega⟩
  · rw [fromGIndex_two]; decide
  · rw [fromGIndex_two]; decide
  · rw [fromGIndex_four]; decide
  · rw [fromGIndex_four]; decide

theorem claim2_attack_defend_amended_witness :
    Position.Attack ⟨⟨1⟩, 0⟩ = some ⟨⟨2⟩, 0⟩ ∧
    Position.Defend ⟨⟨2⟩, 6⟩ = some ⟨⟨3⟩, 2 * (2 * (6 / 2) + 1)⟩ :=
  ⟨claim2_attack_defend_amended.1 1 0 (by decide),
   (claim2_attack_defend_amended.2.1 2 6 (by decide) (by decide)).1⟩

/-- C3 (code-bug evidence): for the root position and maxDepth 100 the code
computes the remaining depth as the wrapped uint64 subtraction
`depth - maxDepth` (= `2^64 - 100`) instead of `maxDepth - depth` (= 100),
so it returns `2^(2^64 - 100) - 1`, which is not the `2^100 - 1` the claim
and the repository's own `TestTraceIndexOfRootWithLargeDepth` expect. The
guard does make `TraceIndex` fail when `maxDepth < depth`, as shown by the
last conjunct. -/
theorem claim3_traceIndex_wrong_rd :
    Position.TraceIndex (NewPositionFromGIndex 1) (NewDepth 100) =
      some (2 ^ (2 ^ 64 - 100) - 1) ∧
    2 ^ 100 - 1 < 2 ^ (2 ^ 64 - 100) - 1 ∧
    Position.TraceIndex ⟨⟨5⟩, 0⟩ (NewDepth 3) = none := by
  refine ⟨?_, ?_, by decide⟩
  · rw [fromGIndex_one]
    show Position.TraceIndex ⟨⟨0⟩, 0⟩ ⟨100⟩ = _
    have hR : (0 + 2 ^ 64 - 100) % 2 ^ 64 = 2 ^ 64 - 100 := by decide
    rw [TraceIndex_eval, if_neg (by decide), hR, Nat.zero_shiftLeft, Nat.zero_or]
  · exact Nat.sub_lt_sub_right Nat.one_le_two_pow
      (Nat.pow_lt_pow_right (by omega) (by decide))

/-- C4 (code-bug evidence): re-rooting gindex 5 (depth 2, index 1) at
ancestor depth 1 should give depth `2 - 1 = 1` (gindex 3), but
`Depth.RelativeDepth` computes the wrapped uint64 subtraction
`ancestor - depth`, producing depth `2^64 - 1`; the `DepthTooSmall` guard
itself does fire exactly when the ancestor is deeper (last conjunct). -/
theorem claim4_relative_depth_wrap :
    Position.RelativeToAncestorAtDepth (NewPositionFromGIndex 5) (NewDepth 1) =
      some ⟨⟨2 ^ 64 - 1⟩, 1⟩ ∧
    NewPositionFromGIndex 3 = (⟨⟨1⟩, 1⟩ : Position) ∧
    (⟨⟨2 ^ 64 - 1⟩, 1⟩ : Position) ≠ ⟨⟨1⟩, 1⟩ ∧
    (∀ d i av, av > d →
      Position.RelativeToAncestorAtDepth ⟨⟨d⟩, i⟩ ⟨av⟩ = none) := by
  refine ⟨?_, fromGIndex_three, ?_, ?_⟩
  · rw [fromGIndex_five]
    show Position.RelativeToAncestorAtDepth ⟨⟨2⟩, 1⟩ ⟨1⟩ = _
    have hR : (1 + 2 ^ 64 - 2) % 2 ^ 64 = 2 ^ 64 - 1 := by decide
    have hm : (1 : Nat) % 2 ^ (2 ^ 64 - 1) = 1 :=
      Nat.mod_eq_of_lt (Nat.one_lt_two_pow (by decide))
    rw [RelativeToAncestor_eval, if_neg (by decide), hR, hm]
  · intro h
    rw [Position.mk.injEq, Depth.mk.injEq] at h
    omega
  · intro d i av hav
    rw [RelativeToAncestor_eval, if_pos hav]

/-- C5 (modelled from the spec, see `DefendsParent`): the predicate is false
without a parent, holds exactly when the claim is two levels below the
parent with 2-bit relative index 2 or 3, and on the test table for parent
gindex 1 it accepts the claims at gindex 6 and 7 and rejects those at
gindex 2, 3, 4 and 5. -/
theorem claim5_defendsParent_spec :
    (∀ c, DefendsParent c none = false) ∧
    (∀ c pp, DefendsParent c (some pp) = true ↔
      (c.depth.val = pp.depth.val + 2 ∧
        (c.indexAtDepth % 2 ^ (c.depth.val - pp.depth.val) = 2 ∨
          c.indexAtDepth % 2 ^ (c.depth.val - pp.depth.val) = 3))) ∧
    DefendsParent (NewPositionFromGIndex 6) (some (NewPositionFromGIndex 1)) = true ∧
    DefendsParent (NewPositionFromGIndex 7) (some (NewPositionFromGIndex 1)) = true ∧
    DefendsParent (NewPositionFromGIndex 2) (some (NewPositionFromGIndex 1)) = false ∧
    DefendsParent (NewPositionFromGIndex 3) (some (NewPositionFromGIndex 1)) = false ∧
    DefendsParent (NewPositionFromGIndex 4) (some (NewPositionFromGIndex 1)) = false ∧
    DefendsParent (NewPositionFromGIndex 5) (some (NewPositionFromGIndex 1)) = false := by
  refine ⟨fun c => rfl, ?_, ?_, ?_, ?_, ?_, ?_, ?_⟩
  · intro c pp
    unfold DefendsParent
    simp [Bool.and_eq_true, Bool.or_eq_true, beq_iff_eq]
  · rw [fromGIndex_six, fromGIndex_one]; decide
  · rw [fromGIndex_seven, fromGIndex_one]; decide
  · rw [fromGIndex_two, fromGIndex_one]; decide
  · rw [fromGIndex_three, fromGIndex_one]; decide
  · rw [fromGIndex_four, fromGIndex_one]; decide
  · rw [fromGIndex_five, fromGIndex_one]; decide

theorem claim5_defendsParent_spec_witness :
    DefendsParent ⟨⟨3⟩, 0⟩ none = false :=
  claim5_defendsParent_spec.1 ⟨⟨3⟩, 0⟩

/-- C6: deriving the parent from the root position (also as the first step
of `Defend`) fails, and attacking or defending from the maximum
representable depth `2^64 - 1` fails, rather than wrapping the depth. -/
theorem claim6_invalid_navigation :
    (∀ i, Position.parent ⟨⟨0⟩, i⟩ = none) ∧
    (∀ i, Position.Defend ⟨⟨0⟩, i⟩ = none) ∧
    (∀ i, Position.Attack ⟨⟨2 ^ 64 - 1⟩, i⟩ = none) ∧
    (∀ i, Position.Defend ⟨⟨2 ^ 64 - 1⟩, i⟩ = none) := by
  refine ⟨fun i => ?_, Defend_zero_eval, fun i => ?_, Defend_max_eval⟩
  · rw [parent_eval, if_pos rfl]
  · rw [Attack_eval, if_pos rfl]

theorem claim6_invalid_navigation_witness :
    Position.parent ⟨⟨0⟩, 0⟩ = none :=
  claim6_invalid_navigation.1 0

/-- C7 (code-bug evidence): attack-attack from gindex 3 re-rooted at depth 1
should reproduce attack-attack from the root (gindex 4, depth 2 index 0),
but the wrapped `RelativeDepth` subtraction yields depth `2^64 - 2` with
index 4 instead. -/
theorem claim7_relative_moves_diverge :
    ((NewPositionFromGIndex 3).Attack.bind Position.Attack).bind
        (fun p => p.RelativeToAncestorAtDepth (NewPositionFromGIndex 3).depth) =
      some ⟨⟨2 ^ 64 - 2⟩, 4⟩ ∧
    (NewPositionFromGIndex 1).Attack.bind Position.Attack = some ⟨⟨2⟩, 0⟩ ∧
    (⟨⟨2 ^ 64 - 2⟩, 4⟩ : Position) ≠ ⟨⟨2⟩, 0⟩ := by
  refine ⟨?_, ?_, ?_⟩
  · rw [fromGIndex_three]
    have hAA : (⟨⟨1⟩, 1⟩ : Position).Attack.bind Position.Attack =
        some ⟨⟨3⟩, 4⟩ := by decide
    rw [hAA, Option.some_bind]
    show Position.RelativeToAncestorAtDepth ⟨⟨3⟩, 4⟩ ⟨1⟩ = _
    have hR : (1 + 2 ^ 64 - 3) % 2 ^ 64 = 2 ^ 64 - 2 := by decide
    have h4 : (4 : Nat) < 2 ^ (2 ^ 64 - 2) := by
      rw [show (4 : Nat) = 2 ^ 2 from rfl]
      exact Nat.pow_lt_pow_right (by omega) (by decide)
    rw [RelativeToAncestor_eval, if_neg (by decide), hR, Nat.mod_eq_of_lt h4]
  · rw [fromGIndex_one]; decide
  · intro h
    rw [Position.mk.injEq, Depth.mk.injEq] at h
    omega

/-- C8: `bigMSB` computes the floor of the base-2 logarithm for positive
inputs (`Nat.log 2`), maps 0 to depth 0 by convention, takes the documented
values on 1, 2, 4, 8, 16, 255, 1024 and `2^63`, and `fromGIndex 0` returns a
root-depth position instead of failing. -/
theorem claim8_msb_values :
    (∀ x, 1 ≤ x → (bigMSB x).val = Nat.log 2 x) ∧
    bigMSB 0 = NewDepth 0 ∧
    bigMSB 1 = NewDepth 0 ∧ bigMSB 2 = NewDepth 1 ∧ bigMSB 4 = NewDepth 2 ∧
    bigMSB 8 = NewDepth 3 ∧ bigMSB 16 = NewDepth 4 ∧ bigMSB 255 = NewDepth 7 ∧
    bigMSB 1024 = NewDepth 10 ∧ bigMSB (2 ^ 63) = NewDepth 63 ∧
    NewPositionFromGIndex 0 = NewPosition (NewDepth 0) 0 := by
  refine ⟨fun x hx => bigMSB_eq_log hx, by decide, by decide, by decide,
    by decide, by decide, by decide, by decide, by decide, by decide, ?_⟩
  rw [fromGIndex_eval]
  decide

theorem claim8_msb_values_witness : (bigMSB 12).val = Nat.log 2 12 :=
  claim8_msb_values.1 12 (by decide)

/-- C9: well-formedness (`indexAtDepth < 2^depth`) is preserved by `Attack`,
by `Defend` whenever it returns a result, by `RelativeToAncestorAtDepth`
whenever it returns a result, and holds for every `fromGIndex x` with
`x ≥ 1`. -/
theorem claim9_wellformed_preserved :
    (∀ p q, WellFormed p → Position.Attack p = some q → WellFormed q) ∧
    (∀ p q, WellFormed p → Position.Defend p = some q → WellFormed q) ∧
    (∀ p a q, WellFormed p → Position.RelativeToAncestorAtDepth p a = some q →
      WellFormed q) ∧
    (∀ x, 1 ≤ x → WellFormed (NewPositionFromGIndex x)) := by
  refine ⟨?_, ?_, ?_, ?_⟩
  · rintro ⟨⟨d⟩, i⟩ q hp hq
    rw [Attack_eval] at hq
    by_cases hd : d = 2 ^ 64 - 1
    · rw [if_pos hd] at hq
      exact Option.noConfusion hq
    · rw [if_neg hd] at hq
      injection hq with h
      subst h
      simp only [WellFormed] at hp ⊢
      have h2 : 2 ^ (d + 1) = 2 * 2 ^ d := by rw [Nat.pow_succ]; omega
      omega
  · rintro ⟨⟨d⟩, i⟩ q hp hq
    rcases Nat.eq_zero_or_pos d with rfl | hd1
    · rw [Defend_zero_eval] at hq
      exact Option.noConfusion hq
    · by_cases hA : d - 1 = 2 ^ 64 - 1
      · rw [Defend_wrap_eval i hd1 hA] at hq
        exact Option.noConfusion hq
      · by_cases hB : d = 2 ^ 64 - 1
        · subst hB
          rw [Defend_max_eval] at hq
          exact Option.noConfusion hq
        · rw [Defend_eval i hd1 hA hB] at hq
          injection hq with h
          subst h
          simp only [WellFormed] at hp ⊢
          have h2 : 2 ^ (d + 1) = 2 * 2 ^ d := by rw [Nat.pow_succ]; omega
          have h3 : 2 ^ d = 2 * 2 ^ (d - 1) := by
            calc 2 ^ d = 2 ^ (d - 1 + 1) := by congr 1; omega
            _ = 2 * 2 ^ (d - 1) := by rw [Nat.pow_succ]; omega
          omega
  · rintro ⟨⟨d⟩, i⟩ ⟨av⟩ q hp hq
    rw [RelativeToAncestor_eval] at hq
    by_cases hav : av > d
    · rw [if_pos hav] at hq
      exact Option.noConfusion hq
    · rw [if_neg hav] at hq
      injection hq with h
      subst h
      exact Nat.mod_lt _ (Nat.two_pow_pos _)
  · intro x hx
    rw [fromGIndex_eval]
    show x % 2 ^ (bigMSB x).val < 2 ^ (bigMSB x).val
    exact Nat.mod_lt _ (Nat.two_pow_pos _)

theorem claim9_wellformed_preserved_witness :
    WellFormed (⟨⟨2⟩, 2⟩ : Position) ∧ WellFormed (NewPositionFromGIndex 5) :=
  ⟨claim9_wellformed_preserved.1 ⟨⟨1⟩, 1⟩ ⟨⟨2⟩, 2⟩
      (show (1 : Nat) < 2 ^ 1 by decide) (by decide),
   claim9_wellformed_preserved.2.2.2 5 (by decide)⟩

/-- C10: from a non-root position below the maximum depth, if indexAtDepth
is odd then `Defend` returns exactly the `Attack` position (depth+1, index
doubled); if it is even then `Defend` lands at the same depth as `Attack`
with index exactly 2 greater. -/
theorem claim10_defend_vs_attack (d i : Nat) (h1 : 1 ≤ d)
    (h2 : d < 2 ^ 64 - 1) :
    (i % 2 = 1 →
      Position.Defend ⟨⟨d⟩, i⟩ = Position.Attack ⟨⟨d⟩, i⟩ ∧
      Position.Defend ⟨⟨d⟩, i⟩ = some ⟨⟨d + 1⟩, 2 * i⟩) ∧
    (i % 2 = 0 →
      Position.Defend ⟨⟨d⟩, i⟩ = some ⟨⟨d + 1⟩, 2 * i + 2⟩ ∧
      Position.Attack ⟨⟨d⟩, i⟩ = some ⟨⟨d + 1⟩, 2 * i⟩) := by
  have hA : Position.Attack ⟨⟨d⟩, i⟩ = some ⟨⟨d + 1⟩, 2 * i⟩ := by
    rw [Attack_eval, if_neg (by omega)]
  have hD := Defend_eval i h1 (by omega) (by omega)
  constructor
  · intro hodd
    have he : 2 * (2 * (i / 2) + 1) = 2 * i := by omega
    rw [hD, he, hA]
    exact ⟨rfl, rfl⟩
  · intro heven
    have he : 2 * (2 * (i / 2) + 1) = 2 * i + 2 := by omega
    rw [hD, he, hA]
    exact ⟨rfl, rfl⟩

theorem claim10_defend_vs_attack_witness :
    Position.Defend ⟨⟨1⟩, 1⟩ = Position.Attack ⟨⟨1⟩, 1⟩ ∧
    Position.Defend ⟨⟨1⟩, 0⟩ = some ⟨⟨2⟩, 2 * 0 + 2⟩ :=
  ⟨((claim10_defend_vs_attack 1 1 (by decide) (by decide)).1 (by decide)).1,
   ((claim10_defend_vs_attack 1 0 (by decide) (by decide)).2 (by decide)).1⟩

end FaultTypes
